import Mathlib

set_option maxRecDepth 100000

/-!
Shallow embedding of the ray-casting renderer in `src/main.rs`
(northernSage/rust-ray-casting).

The program's `f64` values are modelled as exact rationals (`ℚ`); the
Rust saturating casts `as u16` / `as u8` / `as usize` become explicit
clamp-and-truncate functions, and `u16` index arithmetic wraps modulo
`2^16` as in a release build.  Indexing the map vector out of range is a
Rust panic; the embedding reads the default `'.'` there, and the length
mismatch of the literal map is recorded by a dedicated theorem.  The
per-column while loop becomes a fuel recursion; 160 units of fuel cover
the whole march (`160 * 0.1 = 16.0 = max_wall_check_depth`), which the
lemma `marchE_main` proves exactly.
-/

namespace RayCasting

/-- Rust `as u16` cast from `f64`: saturate to `[0, 65535]`, truncate toward
zero (all uses receive non-negative-or-clamped values, so floor suffices). -/
def toU16 (q : ℚ) : ℕ := if q < 0 then 0 else min 65535 (Int.toNat ⌊q⌋)

/-- Rust `as u8` cast from `f64`: saturate to `[0, 255]`, truncate. -/
def toU8 (q : ℚ) : ℕ := if q < 0 then 0 else min 255 (Int.toNat ⌊q⌋)

/-- Rust `as usize` cast from `f64` (64-bit target): saturate to
`[0, 2^64 - 1]`, truncate. -/
def toUsize (q : ℚ) : ℕ := if q < 0 then 0 else min (2 ^ 64 - 1) (Int.toNat ⌊q⌋)

/-- `map_height` constant from `main.rs`. -/
def map_height : ℕ := 16

/-- `map_width` constant from `main.rs`. -/
def map_width : ℕ := 16

/-- The compiled-in literal map of `main.rs`, rows concatenated exactly as in
the Rust string literal (a `\` line continuation skips the newline and the
following indentation, so the rows concatenate directly). -/
def rust_map : List Char :=
  ("################" ++
   "#..............#" ++
   "#..............#" ++
   "#......####....#" ++
   "#..............#" ++
   "#......#########" ++
   "#..............#" ++
   "#............###" ++
   "#..............#" ++
   "#..............#" ++
   "#..............#" ++
   "#.##...........#" ++
   "#......#.......#" ++
   "#......#.......#" ++
   "################").toList

/-- `max_wall_check_depth` constant from `main.rs`. -/
def max_wall_check_depth : ℚ := 16.0

/-- `field_of_view_angle` constant from `main.rs`: `3.14159 / 4.0`. -/
def field_of_view_angle : ℚ := 3.14159 / 4.0

/-- Ray angle for screen column `x` (lines 189-190 of `main.rs`):
`start_of_fov_angle + (x / width) * field_of_view_angle` where
`start_of_fov_angle = orient - field_of_view_angle / 2`. -/
def rayAngle (orient : ℚ) (x width : ℕ) : ℚ :=
  (orient - field_of_view_angle / 2) + ((x : ℚ) / (width : ℚ)) * field_of_view_angle

/-- Which condition stopped the ray march (ghost observation of the loop's
exit branch; the first pair component is exactly the source's
`distance_to_wall`). -/
inductive StopReason
  | outOfBounds
  | wallHit
  | depthExceeded
  deriving DecidableEq

/-- The ray-march while loop of `main.rs` lines 201-218, as a fuel recursion.
Each iteration: `distance += 0.1`; truncate the test point to `u16`; if out of
bounds report `max_wall_check_depth`; else if the map cell is `'#'` report the
current distance; else continue while `distance < max_wall_check_depth`.
`u16` index arithmetic wraps modulo `2^16` (release build); an index past the
end of the vector (a Rust panic) reads `'.'`. -/
def marchLoopE (L : List Char) (mw mh : ℕ) (px py ux uy : ℚ) :
    ℕ → ℚ → ℚ × StopReason
  | 0, d => (d, StopReason.depthExceeded)
  | fuel + 1, d =>
    if d < max_wall_check_depth then
      if mw ≤ toU16 (px + ux * (d + 0.1)) ∨ mh ≤ toU16 (py + uy * (d + 0.1)) then
        (max_wall_check_depth, StopReason.outOfBounds)
      else if L.getD ((toU16 (py + uy * (d + 0.1)) * mw + toU16 (px + ux * (d + 0.1))) % 65536)
          '.' = '#' then
        (d + 0.1, StopReason.wallHit)
      else marchLoopE L mw mh px py ux uy fuel (d + 0.1)
    else (d, StopReason.depthExceeded)

/-- The distance reported for one ray: the march started at
`distance_to_wall = 0.0` with fuel 160 (enough for the full depth). -/
def castRay (L : List Char) (mw mh : ℕ) (px py ux uy : ℚ) : ℚ :=
  (marchLoopE L mw mh px py ux uy 160 0).1

/-- The exit branch the march took (ghost component of `marchLoopE`). -/
def castStop (L : List Char) (mw mh : ℕ) (px py ux uy : ℚ) : StopReason :=
  (marchLoopE L mw mh px py ux uy 160 0).2

/-- The inlined movement update of the `W`/`S` handlers (the spec's
`Player.walk`): `x += sin(orientation)*step; y += cos(orientation)*step`,
with `s`/`c` the sine/cosine of the orientation. -/
def walk (px py s c step : ℚ) : ℚ × ℚ := (px + s * step, py + c * step)

/-- The `W` key handler of `main.rs` lines 163-171: step forward by `0.2`
along the orientation, then revert if the resulting cell is a wall.
`s`/`c` are the sine/cosine of `player_vision_angle`. -/
def wKey (L : List Char) (mw : ℕ) (px py s c : ℚ) : ℚ × ℚ :=
  if L.getD ((toU16 (py + c * 0.2) * mw + toU16 (px + s * 0.2)) % 65536) '.' = '#' then
    (px + s * 0.2 - s * 0.2, py + c * 0.2 - c * 0.2)
  else (px + s * 0.2, py + c * 0.2)

/-- Wall shade (line 233): `(-13.4375 * distance_to_wall + 235.0) as u8`. -/
def wallShade (d : ℚ) : ℕ := toU8 (-13.4375 * d + 235.0)

/-- An RGB pixel (the `Color` struct of `pixel_canvas`). -/
structure Color where
  r : ℕ
  g : ℕ
  b : ℕ
  deriving DecidableEq

/-- Wall pixel color (line 234): the same shade for all three channels. -/
def wallColor (d : ℚ) : Color := ⟨wallShade d, wallShade d, wallShade d⟩

/-- `floor_upper_boundary` (line 220): `width/2 - width/distance`. -/
def floor_upper_boundary (width : ℕ) (d : ℚ) : ℚ :=
  (width : ℚ) / 2 - (width : ℚ) / d

/-- `ceiling_lower_boundary` (line 221): `width - floor_upper_boundary`. -/
def ceiling_lower_boundary (width : ℕ) (d : ℚ) : ℚ :=
  (width : ℚ) - floor_upper_boundary width d

/-- The three vertical bands of a column. -/
inductive Band
  | floorBand
  | wallBand
  | ceilingBand
  deriving DecidableEq

/-- Band selection for row `y` (lines 224-244): `y < fub as usize` is floor;
`y > fub as usize && y <= clb as usize` is wall; everything else is the flat
black ceiling. -/
def bandAt (width : ℕ) (d : ℚ) (y : ℕ) : Band :=
  if y < toUsize (floor_upper_boundary width d) then Band.floorBand
  else if toUsize (floor_upper_boundary width d) < y ∧
      y ≤ toUsize (ceiling_lower_boundary width d) then Band.wallBand
  else Band.ceilingBand

/-- Modelled from the spec: the reference brute-force scan for the end-to-end
scenario (§8), missing from the code.  Scanning north (increasing `y`) from
`(x, y0)`, the distance to the first `'#'` cell of the literal map, in cells. -/
def bruteForceNorthDist (x y0 : ℕ) : Option ℚ :=
  (((List.range map_height).filter (fun j => y0 ≤ j)).find?
      (fun j => rust_map.getD (j * map_width + x) '.' = '#')).map
    (fun j => (j : ℚ) - (y0 : ℚ))

/-! ## Helper lemmas -/

/-- One accumulation step of the march: adding `0.1` to `k/10` gives `(k+1)/10`. -/
theorem step_add_tenth (k : ℕ) : ((k : ℚ)) / 10 + 0.1 = ((k + 1 : ℕ) : ℚ) / 10 := by
  rw [show (0.1 : ℚ) = 1 / 10 from by norm_num]
  push_cast
  ring

/-- Floor of a natural number divided by ten equals natural division. -/
theorem floor_natCast_div_ten (n : ℕ) : ⌊(n : ℚ) / 10⌋ = ((n / 10 : ℕ) : ℤ) := by
  rw [Int.floor_eq_iff]
  constructor
  · rw [show (((n / 10 : ℕ) : ℤ) : ℚ) = ((n / 10 : ℕ) : ℚ) from by norm_cast]
    rw [le_div_iff₀ (by norm_num : (0 : ℚ) < 10)]
    exact_mod_cast (by omega : (n / 10) * 10 ≤ n)
  · rw [show ((((n / 10 : ℕ) : ℤ) : ℚ) + 1) = ((n / 10 : ℕ) : ℚ) + 1 from by norm_cast]
    rw [div_lt_iff₀ (by norm_num : (0 : ℚ) < 10)]
    exact_mod_cast (by omega : n < (n / 10 + 1) * 10)

/-- `toU16` of a natural number divided by ten. -/
theorem toU16_natCast_div_ten (n : ℕ) : toU16 ((n : ℚ) / 10) = min 65535 (n / 10) := by
  unfold toU16
  rw [if_neg (not_lt.mpr (by positivity : (0 : ℚ) ≤ (n : ℚ) / 10))]
  rw [floor_natCast_div_ten]
  omega

/-- Column 8 of the literal map is empty from row 8 up to row 13. -/
theorem rust_map_col8_open (j : ℕ) (h8 : 8 ≤ j) (h13 : j ≤ 13) :
    ¬ (rust_map.getD ((j * 16 + 8) % 65536) '.' = '#') := by
  interval_cases j <;> decide

/-- Core bound on the march: started at `k/10` with `160 - k` units of fuel,
the reported distance is in `[0.1, 16]`, and any exit other than a wall hit
reports exactly `16`. -/
theorem marchE_main (L : List Char) (mw mh : ℕ) (px py ux uy : ℚ) :
    ∀ fuel k : ℕ, k + fuel = 160 →
      1 / 10 ≤ (marchLoopE L mw mh px py ux uy fuel ((k : ℚ) / 10)).1 ∧
      (marchLoopE L mw mh px py ux uy fuel ((k : ℚ) / 10)).1 ≤ 16 ∧
      ((marchLoopE L mw mh px py ux uy fuel ((k : ℚ) / 10)).2 ≠ StopReason.wallHit →
        (marchLoopE L mw mh px py ux uy fuel ((k : ℚ) / 10)).1 = 16) := by
  intro fuel
  induction fuel with
  | zero =>
    intro k hk
    have hk160 : k = 160 := by omega
    subst hk160
    simp only [marchLoopE]
    refine ⟨by push_cast; norm_num, by push_cast; norm_num, fun _ => by push_cast; norm_num⟩
  | succ n ih =>
    intro k hk
    by_cases hd : ((k : ℚ) / 10) < max_wall_check_depth
    · simp only [marchLoopE, if_pos hd]
      split
      · refine ⟨by norm_num [max_wall_check_depth], by norm_num [max_wall_check_depth],
          fun _ => by norm_num [max_wall_check_depth]⟩
      · split
        · have hk159 : (k : ℚ) ≤ 159 := by exact_mod_cast (by omega : k ≤ 159)
          have hk0 : (0 : ℚ) ≤ (k : ℚ) := Nat.cast_nonneg k
          rw [show (0.1 : ℚ) = 1 / 10 from by norm_num]
          refine ⟨by linarith, by linarith, fun h => absurd rfl h⟩
        · rw [step_add_tenth]
          exact ih (k + 1) (by omega)
    · have hk16 : (16 : ℚ) ≤ (k : ℚ) / 10 := by
        have := not_lt.mp hd
        rw [max_wall_check_depth] at this
        linarith [this]
      have hk160 : k = 160 := by
        have h160 : (160 : ℚ) ≤ (k : ℚ) := by
          rw [le_div_iff₀ (by norm_num : (0 : ℚ) < 10)] at hk16
          linarith
        have : (160 : ℕ) ≤ k := by exact_mod_cast h160
        omega
      subst hk160
      simp only [marchLoopE, if_neg hd]
      refine ⟨by push_cast; norm_num, by push_cast; norm_num, fun _ => by push_cast; norm_num⟩

/-- The march of the center-column scenario: from `(8,8)` with direction
`(0,1)` over the literal map, every start `k/10` with `k < 60` ends with the
wall hit at distance `6`. -/
theorem c4_march : ∀ fuel k : ℕ, k + fuel = 160 → k < 60 →
    marchLoopE rust_map 16 16 8 8 0 1 fuel ((k : ℚ) / 10) = (6, StopReason.wallHit) := by
  intro fuel
  induction fuel with
  | zero => intro k hk hk60; omega
  | succ n ih =>
    intro k hk hk60
    have hklt : (k : ℚ) < 160 := by exact_mod_cast (by omega : k < 160)
    have hd : ((k : ℚ) / 10) < max_wall_check_depth := by
      rw [max_wall_check_depth, div_lt_iff₀ (by norm_num : (0 : ℚ) < 10)]
      norm_num
      linarith
    have hx : toU16 ((8 : ℚ) + 0 * ((k : ℚ) / 10 + 0.1)) = 8 := by
      rw [show (8 : ℚ) + 0 * ((k : ℚ) / 10 + 0.1) = ((80 : ℕ) : ℚ) / 10 from by push_cast; ring]
      rw [toU16_natCast_div_ten]
      omega
    have hy : toU16 ((8 : ℚ) + 1 * ((k : ℚ) / 10 + 0.1)) = (81 + k) / 10 := by
      rw [show (8 : ℚ) + 1 * ((k : ℚ) / 10 + 0.1) = ((81 + k : ℕ) : ℚ) / 10 from by
        rw [show (0.1 : ℚ) = 1 / 10 from by norm_num]; push_cast; ring]
      rw [toU16_natCast_div_ten]
      omega
    simp only [marchLoopE, if_pos hd, hx, hy]
    rw [if_neg (by omega : ¬ (16 ≤ 8 ∨ 16 ≤ (81 + k) / 10))]
    by_cases hk59 : k = 59
    · subst hk59
      rw [show (81 + 59) / 10 = 14 from by norm_num]
      rw [if_pos (by decide : rust_map.getD ((14 * 16 + 8) % 65536) '.' = '#')]
      rw [step_add_tenth]
      norm_num
    · have hj13 : (81 + k) / 10 ≤ 13 := by omega
      have hj8 : 8 ≤ (81 + k) / 10 := by omega
      rw [if_neg (rust_map_col8_open ((81 + k) / 10) hj8 hj13)]
      rw [step_add_tenth]
      exact ih (k + 1) (by omega) (by omega)

/-- A march over the empty cell list from `(8,8)` with direction `(0,1)`: it
leaves the bounds at distance `8` and reports `max_wall_check_depth`. -/
theorem c3_march : ∀ fuel k : ℕ, k + fuel = 160 → k ≤ 79 →
    marchLoopE [] 16 16 8 8 0 1 fuel ((k : ℚ) / 10) =
      (max_wall_check_depth, StopReason.outOfBounds) := by
  intro fuel
  induction fuel with
  | zero => intro k hk hk79; omega
  | succ n ih =>
    intro k hk hk79
    have hklt : (k : ℚ) < 160 := by exact_mod_cast (by omega : k < 160)
    have hd : ((k : ℚ) / 10) < max_wall_check_depth := by
      rw [max_wall_check_depth, div_lt_iff₀ (by norm_num : (0 : ℚ) < 10)]
      norm_num
      linarith
    have hx : toU16 ((8 : ℚ) + 0 * ((k : ℚ) / 10 + 0.1)) = 8 := by
      rw [show (8 : ℚ) + 0 * ((k : ℚ) / 10 + 0.1) = ((80 : ℕ) : ℚ) / 10 from by push_cast; ring]
      rw [toU16_natCast_div_ten]
      omega
    have hy : toU16 ((8 : ℚ) + 1 * ((k : ℚ) / 10 + 0.1)) = (81 + k) / 10 := by
      rw [show (8 : ℚ) + 1 * ((k : ℚ) / 10 + 0.1) = ((81 + k : ℕ) : ℚ) / 10 from by
        rw [show (0.1 : ℚ) = 1 / 10 from by norm_num]; push_cast; ring]
      rw [toU16_natCast_div_ten]
      omega
    simp only [marchLoopE, if_pos hd, hx, hy]
    by_cases hk79' : k = 79
    · subst hk79'
      rw [if_pos (by omega : (16 ≤ 8 ∨ 16 ≤ (81 + 79) / 10))]
    · rw [if_neg (by omega : ¬ (16 ≤ 8 ∨ 16 ≤ (81 + k) / 10))]
      rw [if_neg (by simp : ¬ (([] : List Char).getD
        (((81 + k) / 10 * 16 + 8) % 65536) '.' = '#'))]
      rw [step_add_tenth]
      exact ih (k + 1) (by omega) (by omega)

/-- The start of the march, `0`, as `k/10` with `k = 0`. -/
theorem zero_div_ten : ((0 : ℕ) : ℚ) / 10 = 0 := by norm_num

/-! ## Claim theorems -/

/-- Claim C1 (code bug): the compiled-in literal map has 240 cells — 15 rows
of 16 — although `map_height = 16` and `map_width = 16` demand 256; every cell
is a wall `'#'` or empty `'.'`. -/
theorem rust_map_length_mismatch :
    rust_map.length = 240 ∧ rust_map.length ≠ map_height * map_width ∧
    ∀ ch ∈ rust_map, ch = '#' ∨ ch = '.' := by
  refine ⟨by decide, by decide, by decide⟩

/-- Claim C2: for every map, player position and ray direction, the march
(total by construction, with fuel 160 proven never exhausted prematurely)
reports a distance in `[0, max_wall_check_depth]`. -/
theorem castRay_in_range (L : List Char) (mw mh : ℕ) (px py ux uy : ℚ) :
    0 ≤ castRay L mw mh px py ux uy ∧
    castRay L mw mh px py ux uy ≤ max_wall_check_depth := by
  have h := marchE_main L mw mh px py ux uy 160 0 (by omega)
  rw [zero_div_ten] at h
  unfold castRay
  refine ⟨le_trans (by norm_num) h.1, ?_⟩
  rw [max_wall_check_depth, show (16.0 : ℚ) = 16 from by norm_num]
  exact h.2.1

/-- Claim C3: whenever the march stops for a reason other than landing on a
wall cell (out of bounds, or depth exhausted), the reported distance is
exactly `max_wall_check_depth`. -/
theorem castRay_nonwall_eq_max (L : List Char) (mw mh : ℕ) (px py ux uy : ℚ)
    (h : castStop L mw mh px py ux uy ≠ StopReason.wallHit) :
    castRay L mw mh px py ux uy = max_wall_check_depth := by
  have hm := marchE_main L mw mh px py ux uy 160 0 (by omega)
  rw [zero_div_ten] at hm
  unfold castStop at h
  unfold castRay
  rw [max_wall_check_depth, show (16.0 : ℚ) = 16 from by norm_num]
  exact hm.2.2 h

/-- Witness for C3: over the empty cell list the march from `(8,8)` heading
`(0,1)` leaves the bounds, and the reported distance is the maximal depth. -/
theorem castRay_nonwall_eq_max_witness :
    castStop [] 16 16 8 8 0 1 ≠ StopReason.wallHit ∧
    castRay [] 16 16 8 8 0 1 = max_wall_check_depth := by
  have h3 := c3_march 160 0 (by omega) (by omega)
  rw [zero_div_ten] at h3
  have hstop : castStop [] 16 16 8 8 0 1 = StopReason.outOfBounds := by
    unfold castStop
    rw [h3]
  refine ⟨by rw [hstop]; decide,
    castRay_nonwall_eq_max [] 16 16 8 8 0 1 (by rw [hstop]; decide)⟩

/-- Claim C4: with the literal map, the player at `(8,8)` with orientation 0,
the center column's ray angle equals the orientation (0), its direction is
`(sin 0, cos 0) = (0, 1)`, and the march reports distance 6 — the straight
line distance to the first `'#'` scanning north from `(8,8)`, which the
reference brute-force scan also reports. -/
theorem center_column_matches_brute_force :
    rayAngle 0 256 512 = 0 ∧ Real.sin 0 = 0 ∧ Real.cos 0 = 1 ∧
    castRay rust_map 16 16 8 8 0 1 = 6 ∧
    bruteForceNorthDist 8 8 = some 6 := by
  refine ⟨?_, Real.sin_zero, Real.cos_zero, ?_, ?_⟩
  · unfold rayAngle
    push_cast
    ring_nf
  · have h := c4_march 160 0 (by omega) (by omega)
    rw [zero_div_ten] at h
    unfold castRay
    rw [h]
  · have hfind : (((List.range map_height).filter (fun j => 8 ≤ j)).find?
        (fun j => rust_map.getD (j * map_width + 8) '.' = '#')) = some 14 := by decide
    unfold bruteForceNorthDist
    rw [hfind]
    simp only [Option.map]
    norm_num

/-- Claim C5: from any player state whose one-step-forward cell is a wall, the
`W` handler's tentative move and revert leaves the position equal to its value
before the command. -/
theorem wKey_wall_reverts (L : List Char) (mw : ℕ) (px py s c : ℚ)
    (h : L.getD ((toU16 (py + c * 0.2) * mw + toU16 (px + s * 0.2)) % 65536) '.' = '#') :
    wKey L mw px py s c = (px, py) := by
  unfold wKey
  rw [if_pos h]
  simp only [Prod.mk.injEq]
  constructor <;> ring

/-- Witness for C5: at `(8, 13.9)` facing north, one step forward lands on the
wall row 14, and the `W` handler leaves the position unchanged. -/
theorem wKey_wall_reverts_witness :
    rust_map.getD ((toU16 ((13.9 : ℚ) + 1 * 0.2) * 16 + toU16 ((8 : ℚ) + 0 * 0.2)) % 65536)
      '.' = '#' ∧
    wKey rust_map 16 8 13.9 0 1 = (8, 13.9) := by
  have h1 : toU16 ((13.9 : ℚ) + 1 * 0.2) = 14 := by
    rw [show (13.9 : ℚ) + 1 * 0.2 = ((141 : ℕ) : ℚ) / 10 from by push_cast; norm_num]
    rw [toU16_natCast_div_ten]
    omega
  have h2 : toU16 ((8 : ℚ) + 0 * 0.2) = 8 := by
    rw [show (8 : ℚ) + 0 * 0.2 = ((80 : ℕ) : ℚ) / 10 from by push_cast; norm_num]
    rw [toU16_natCast_div_ten]
    omega
  have h : rust_map.getD ((toU16 ((13.9 : ℚ) + 1 * 0.2) * 16 + toU16 ((8 : ℚ) + 0 * 0.2))
      % 65536) '.' = '#' := by
    rw [h1, h2]
    decide
  exact ⟨h, wKey_wall_reverts rust_map 16 8 13.9 0 1 h⟩

/-- Claim C6: `walk` by any step followed by `walk` by its negation restores
the original position exactly (additive invertibility, in the exact-rational
model of the f64 state). -/
theorem walk_invertible (px py s c t : ℚ) :
    walk (walk px py s c t).1 (walk px py s c t).2 s c (-t) = (px, py) := by
  simp only [walk, Prod.mk.injEq]
  constructor <;> ring

/-- Claim C7: the wall color uses the shade `-13.4375*distance + 235.0`
truncated to `u8` identically on all three channels; for any distance the
march can produce (`0.1 ≤ d ≤ 16`) the shade is inside the 8-bit range, the
maximal depth gives the darkest value 20, and distance `0.1` gives the
near-white value 233. -/
theorem wallShade_in_range (d : ℚ) (h1 : 1 / 10 ≤ d) (h2 : d ≤ 16) :
    (wallColor d).r = wallShade d ∧ (wallColor d).g = wallShade d ∧
    (wallColor d).b = wallShade d ∧
    20 ≤ wallShade d ∧ wallShade d ≤ 255 ∧
    wallShade max_wall_check_depth = 20 ∧ wallShade (1 / 10) = 233 := by
  refine ⟨rfl, rfl, rfl, ?_, ?_, ?_, ?_⟩
  · unfold wallShade toU8
    have hv : (20 : ℚ) ≤ -13.4375 * d + 235.0 := by
      have hm : (13.4375 : ℚ) * d ≤ 13.4375 * 16 :=
        mul_le_mul_of_nonneg_left h2 (by norm_num : (0 : ℚ) ≤ 13.4375)
      linarith
    rw [if_neg (not_lt.mpr (by linarith : (0 : ℚ) ≤ -13.4375 * d + 235.0))]
    have hf : (20 : ℤ) ≤ ⌊(-13.4375 * d + 235.0 : ℚ)⌋ := Int.le_floor.mpr (by exact_mod_cast hv)
    omega
  · unfold wallShade toU8
    split
    · omega
    · omega
  · unfold wallShade toU8
    rw [show (-13.4375 * max_wall_check_depth + 235.0 : ℚ) = ((20 : ℕ) : ℚ) / 1 from by
      rw [max_wall_check_depth]; push_cast; norm_num]
    rw [if_neg (by norm_num)]
    rw [show ⌊((20 : ℕ) : ℚ) / 1⌋ = 20 from by norm_num]
    decide
  · unfold wallShade toU8
    rw [if_neg (by norm_num : ¬((-13.4375 * ((1 : ℚ) / 10) + 235.0 : ℚ) < 0))]
    rw [show ⌊(-13.4375 * ((1 : ℚ) / 10) + 235.0 : ℚ)⌋ = 233 from by
      rw [Int.floor_eq_iff]
      constructor <;> norm_num]
    decide

/-- Witness for C7: the instantiation at distance 1. -/
theorem wallShade_in_range_witness :
    (1 / 10 : ℚ) ≤ 1 ∧ (1 : ℚ) ≤ 16 ∧
    ((wallColor 1).r = wallShade 1 ∧ (wallColor 1).g = wallShade 1 ∧
     (wallColor 1).b = wallShade 1 ∧
     20 ≤ wallShade 1 ∧ wallShade 1 ≤ 255 ∧
     wallShade max_wall_check_depth = 20 ∧ wallShade (1 / 10) = 233) :=
  ⟨by norm_num, by norm_num, wallShade_in_range 1 (by norm_num) (by norm_num)⟩

/-- Counterexample to claim C8 as stated: at distance 16 the boundaries are
`floor_upper_boundary = 224` and `ceiling_lower_boundary = 288`, and the code
paints row 224 as the flat-black ceiling band even though `224 > 288` fails
(and neither the floor nor the wall condition of the claim holds at 224), so
the ceiling band is not exactly the rows `y > ceiling_lower_boundary`. -/
theorem bandAt_boundary_row_is_ceiling :
    bandAt 512 16 224 = Band.ceilingBand ∧
    ¬ ((224 : ℚ) > ceiling_lower_boundary 512 16) ∧
    ¬ ((224 : ℚ) < floor_upper_boundary 512 16) ∧
    ¬ (floor_upper_boundary 512 16 < 224 ∧ (224 : ℚ) ≤ ceiling_lower_boundary 512 16) := by
  have hfb : floor_upper_boundary 512 16 = 224 := by
    unfold floor_upper_boundary
    norm_num
  have hcb : ceiling_lower_boundary 512 16 = 288 := by
    unfold ceiling_lower_boundary
    rw [hfb]
    norm_num
  have hfbN : toUsize (floor_upper_boundary 512 16) = 224 := by
    rw [hfb]
    unfold toUsize
    rw [if_neg (by norm_num)]
    rw [show ⌊(224 : ℚ)⌋ = 224 from by norm_num]
    omega
  have hcbN : toUsize (ceiling_lower_boundary 512 16) = 288 := by
    rw [hcb]
    unfold toUsize
    rw [if_neg (by norm_num)]
    rw [show ⌊(288 : ℚ)⌋ = 288 from by norm_num]
    omega
  refine ⟨?_, by rw [hcb]; norm_num, by rw [hfb]; norm_num,
    by rw [hfb, hcb]; norm_num⟩
  unfold bandAt
  rw [hfbN, hcbN]
  decide

/-- Claim C8 amended: with the boundaries truncated to `usize` exactly as the
code compares them, for any march distance (`0.1 ≤ d ≤ 16`) the floor band is
`y < fub`, the wall band is `fub < y ≤ clb`, and the flat-black ceiling band
is exactly the remaining rows, namely the boundary row `y = fub` together with
the rows `y > clb`. -/
theorem bandAt_partition (d : ℚ) (y : ℕ) (h1 : 1 / 10 ≤ d) (h2 : d ≤ 16) :
    (bandAt 512 d y = Band.floorBand ↔ y < toUsize (floor_upper_boundary 512 d)) ∧
    (bandAt 512 d y = Band.wallBand ↔
      toUsize (floor_upper_boundary 512 d) < y ∧
      y ≤ toUsize (ceiling_lower_boundary 512 d)) ∧
    (bandAt 512 d y = Band.ceilingBand ↔
      y = toUsize (floor_upper_boundary 512 d) ∨
      toUsize (ceiling_lower_boundary 512 d) < y) := by
  have hd0 : (0 : ℚ) < d := lt_of_lt_of_le (by norm_num) h1
  have hfb_le : floor_upper_boundary 512 d ≤ 224 := by
    unfold floor_upper_boundary
    have h32 : (32 : ℚ) ≤ 512 / d := by
      rw [le_div_iff₀ hd0]
      linarith
    push_cast
    linarith
  have hcb_ge : (288 : ℚ) ≤ ceiling_lower_boundary 512 d := by
    unfold ceiling_lower_boundary
    push_cast
    linarith
  have hfbN : toUsize (floor_upper_boundary 512 d) ≤ 224 := by
    unfold toUsize
    split
    · omega
    · have hI : ⌊floor_upper_boundary 512 d⌋ ≤ 224 := by
        calc ⌊floor_upper_boundary 512 d⌋ ≤ ⌊(224 : ℚ)⌋ := Int.floor_le_floor hfb_le
        _ = 224 := by norm_num
      have h2p : (2 : ℕ) ^ 64 - 1 = 18446744073709551615 := by norm_num
      rw [h2p]
      omega
  have hcbN : 288 ≤ toUsize (ceiling_lower_boundary 512 d) := by
    unfold toUsize
    rw [if_neg (not_lt.mpr (by linarith : (0 : ℚ) ≤ ceiling_lower_boundary 512 d))]
    have hI : (288 : ℤ) ≤ ⌊ceiling_lower_boundary 512 d⌋ :=
      Int.le_floor.mpr (by exact_mod_cast hcb_ge)
    have h2p : (2 : ℕ) ^ 64 - 1 = 18446744073709551615 := by norm_num
    rw [h2p]
    omega
  unfold bandAt
  split_ifs with hy1 hy2
  · exact ⟨⟨fun _ => hy1, fun _ => rfl⟩,
      ⟨fun h => absurd h (by decide), fun h => False.elim (by omega)⟩,
      ⟨fun h => absurd h (by decide), fun h => False.elim (by omega)⟩⟩
  · exact ⟨⟨fun h => absurd h (by decide), fun h => False.elim (by omega)⟩,
      ⟨fun _ => hy2, fun _ => rfl⟩,
      ⟨fun h => absurd h (by decide), fun h => False.elim (by omega)⟩⟩
  · exact ⟨⟨fun h => absurd h (by decide), fun h => False.elim (by omega)⟩,
      ⟨fun h => absurd h (by decide), fun h => absurd h hy2⟩,
      ⟨fun _ => by omega, fun _ => rfl⟩⟩

/-- Witness for the amended C8: the instantiation at distance 16, row 300. -/
theorem bandAt_partition_witness :
    (1 / 10 : ℚ) ≤ 16 ∧ (16 : ℚ) ≤ 16 ∧
    ((bandAt 512 16 300 = Band.floorBand ↔ 300 < toUsize (floor_upper_boundary 512 16)) ∧
     (bandAt 512 16 300 = Band.wallBand ↔
       toUsize (floor_upper_boundary 512 16) < 300 ∧
       300 ≤ toUsize (ceiling_lower_boundary 512 16)) ∧
     (bandAt 512 16 300 = Band.ceilingBand ↔
       300 = toUsize (floor_upper_boundary 512 16) ∨
       toUsize (ceiling_lower_boundary 512 16) < 300)) :=
  ⟨by norm_num, le_refl 16, bandAt_partition 16 300 (by norm_num) (le_refl 16)⟩

/-- Claim C9: the distance the march reports is always at least `0.1` (the
march adds `0.1` before any test), hence nonzero, so the division by the
distance in `floor_upper_boundary` is never a division by zero. -/
theorem castRay_ge_tenth (L : List Char) (mw mh : ℕ) (px py ux uy : ℚ) :
    1 / 10 ≤ castRay L mw mh px py ux uy ∧ castRay L mw mh px py ux uy ≠ 0 := by
  have h := marchE_main L mw mh px py ux uy 160 0 (by omega)
  rw [zero_div_ten] at h
  unfold castRay
  refine ⟨h.1, fun h0 => ?_⟩
  rw [h0] at h
  norm_num at h

/-- Counterexample to claim C10 as stated: the field-of-view constant is
`3.14159 / 4.0`, which is not exactly `π/4` (since `3.141592 < π`). -/
theorem fov_ne_pi_div_four : ((field_of_view_angle : ℚ) : ℝ) ≠ Real.pi / 4 := by
  intro h
  have hq : ((field_of_view_angle : ℚ) : ℝ) = 3.14159 / 4 := by
    rw [field_of_view_angle]
    push_cast
    norm_num
  rw [hq] at h
  have hpi := Real.pi_gt_d6
  rw [show (3.141592 : ℝ) = 3141592 / 1000000 from by norm_num] at hpi
  have : Real.pi = 3.14159 := by linarith
  rw [this] at hpi
  norm_num at hpi

/-- Claim C10 amended: the field-of-view constant equals `3.14159 / 4`
exactly; it approximates `π/4` from below to within `10⁻⁶` but is not equal
to it. -/
theorem fov_approximates_pi_div_four :
    field_of_view_angle = 3.14159 / 4 ∧
    0 < Real.pi / 4 - ((field_of_view_angle : ℚ) : ℝ) ∧
    Real.pi / 4 - ((field_of_view_angle : ℚ) : ℝ) < 1 / 1000000 := by
  have hq : ((field_of_view_angle : ℚ) : ℝ) = 3.14159 / 4 := by
    rw [field_of_view_angle]
    push_cast
    norm_num
  have hlo := Real.pi_gt_d6
  have hhi := Real.pi_lt_d6
  refine ⟨by norm_num [field_of_view_angle], ?_, ?_⟩
  · rw [hq]
    nlinarith
  · rw [hq]
    nlinarith

end RayCasting
